import Mathlib

/-!
A shallow embedding of the unified-diff hunk parser, single-patch
reconstructor (`apply_patch_to_content`, show_differences.py lines 241-327)
and multi-patch merger (`generate_interleaved_lines_for_all_prs`,
show_differences.py lines 677-750) of the GitHub-dif-display repository.

Modelling conventions:
* A Python string that the source immediately `splitlines()` is modelled as
  the resulting `List String` of its lines.
* `html.escape` (quote=True) is modelled by `escapeHtml`.
* The HTML strings emitted by `apply_patch_to_content` have exactly three
  shapes (plain escaped text, an `added-line` span, an
  `added-line pr-annotated` span with a title attribute); they are modelled
  by the structured type `ALine`, and `renderALine` reproduces the exact
  string of each shape.
* The line dictionaries built by `generate_interleaved_lines_for_all_prs`
  (`{'text', 'type', 'pr_info'}` with `'type'` one of `'base'`/`'added'`)
  are modelled by the structured type `MLine`.
* The Python dict `additions_map` is only ever read by key lookup
  (`-1 in additions_map`, `additions_map[i]`), never iterated, so it is
  modelled as a function `Int → List MLine` updated pointwise.
-/

/-- PR metadata dictionary carried opaquely on annotated lines
(`pr_details` in the source). -/
structure PRInfo where
  number : String
  title : String
  html_url : String
  local_pr_page_link : String
deriving DecidableEq, Repr

/-- One character of `html.escape(s, quote=True)`:
`&`, `<`, `>`, `"`, `'` become entities, all else passes through. -/
def escapeChar (c : Char) : String :=
  if c = '&' then "&amp;"
  else if c = '<' then "&lt;"
  else if c = '>' then "&gt;"
  else if c = '"' then "&quot;"
  else if c = '\'' then "&#x27;"
  else String.singleton c

/-- Model of `html.escape(s)` with default quote=True, as used throughout the source. -/
def escapeHtml (s : String) : String :=
  String.join (s.data.map escapeChar)

/-- Model of `s.startswith(p)` for a concrete leading string given as characters. -/
def strStarts (p : List Char) (s : String) : Bool :=
  p.isPrefixOf s.data

/-- Model of `s[1:]`: drop the leading marker character of a hunk body line. -/
def dropFirst (s : String) : String :=
  ⟨s.data.drop 1⟩

/-- Value of a digit run, as `int()` computes it on a decimal string. -/
def digitsToNat (ds : List Char) : Nat :=
  ds.foldl (fun a c => a * 10 + (c.toNat - 48)) 0

/-- Greedy `(\d+)`: consume a maximal nonempty digit run, return its value
and the rest. -/
def parseDigits (cs : List Char) : Option (Nat × List Char) :=
  let ds := cs.takeWhile Char.isDigit
  if ds.isEmpty then none
  else some (digitsToNat ds, cs.dropWhile Char.isDigit)

/-- Consume a literal character sequence, or fail. -/
def stripLit : List Char → List Char → Option (List Char)
  | [], cs => some cs
  | p :: ps, c :: cs => if c = p then stripLit ps cs else none
  | _ :: _, [] => none

/-- The optional `(,(\d+))?` group: consumed only when a comma immediately
followed by at least one digit is present (otherwise the group matches
empty, exactly as the regex engine resolves it, since a bare comma can
never be matched by the following literal space). -/
def skipOptCommaDigits (cs : List Char) : List Char :=
  match cs with
  | ',' :: rest =>
    match parseDigits rest with
    | some (_, rest2) => rest2
    | none => cs
  | _ => cs

/-- Attempt to match `@@ -(\d+)(,(\d+))? \+(\d+)(,(\d+))? @@` at the start
of `cs`, returning group 1 (`old_start`).  Greedy digit runs followed by
non-digit delimiters need no backtracking, so this is the behaviour
of the regex at a fixed position. -/
def matchHeaderAt (cs : List Char) : Option Nat := do
  let r1 ← stripLit ['@', '@', ' ', '-'] cs
  let (o, r2) ← parseDigits r1
  let r3 := skipOptCommaDigits r2
  let r4 ← stripLit [' ', '+'] r3
  let (_, r5) ← parseDigits r4
  let r6 := skipOptCommaDigits r5
  let _ ← stripLit [' ', '@', '@'] r6
  pure o

/-- Model of `re.search`: try the pattern at each position from the left, returning
the first match. -/
def searchHeader : List Char → Option Nat
  | [] => none
  | c :: rest =>
    match matchHeaderAt (c :: rest) with
    | some o => some o
    | none => searchHeader rest

/-- Model of `re.search(r"@@ -(\d+)(,(\d+))? \+(\d+)(,(\d+))? @@", header)` and
`int(match.group(1))`; `none` models a failed search. -/
def parseHeader (s : String) : Option Nat :=
  searchHeader s.data

/-- One step of the hunk-sectioning scan shared by both functions
(lines 259-269 and 710-717): an `@@` line closes the open hunk (if any)
and opens a new one; while a hunk is open, lines starting with `+`, `-`,
space or backslash are appended to its body; all other lines are dropped. -/
def hunkSectionsAux : List String → Option (String × List String) → List (String × List String)
  | [], none => []
  | [], some hb => [hb]
  | l :: ls, acc =>
    if strStarts ['@', '@'] l then
      match acc with
      | none => hunkSectionsAux ls (some (l, []))
      | some hb => hb :: hunkSectionsAux ls (some (l, []))
    else
      match acc with
      | none => hunkSectionsAux ls none
      | some (h, b) =>
        if strStarts ['+'] l || strStarts ['-'] l || strStarts [' '] l || strStarts ['\\'] l
        then hunkSectionsAux ls (some (h, b ++ [l]))
        else hunkSectionsAux ls (some (h, b))

/-- The `(header_line, body_lines)` sections of a patch text. -/
def hunkSections (lines : List String) : List (String × List String) :=
  hunkSectionsAux lines none

/-- Origin of a line emitted by `apply_patch_to_content`, one constructor
per shape of emitted HTML string (`renderALine` recovers the string):
`base` for a plain escaped line (verbatim base copy or hunk context line),
`addedPlain` for `<span class="added-line">…</span>`,
`addedAnnotated` for the `pr-annotated` span carrying PR number/title. -/
inductive AOrigin where
  | base
  | addedPlain
  | addedAnnotated (pr : PRInfo)
deriving DecidableEq, Repr

/-- A line of the reconstructed content, text still unescaped
(escaping happens in `renderALine`). -/
structure ALine where
  text : String
  origin : AOrigin
deriving DecidableEq, Repr

/-- The exact HTML string the source appends to
`patched_lines_html_result` for each kind of line (lines 294-317). -/
def renderALine (l : ALine) : String :=
  match l.origin with
  | AOrigin.base => escapeHtml l.text
  | AOrigin.addedPlain =>
    "<span class=\"added-line\">" ++ escapeHtml l.text ++ "</span>"
  | AOrigin.addedAnnotated pr =>
    "<span class=\"added-line pr-annotated\" title=\"PR #" ++ pr.number ++ ": "
      ++ escapeHtml pr.title ++ "\">" ++ escapeHtml l.text ++ "</span>"

/-- The index list of a verbatim copy loop
`for i in range(a, b): …base_lines[i]…`. -/
def copyIndices (a b : Nat) : List Nat :=
  List.range' a (b - a)

/-- Verbatim copy of `base_lines[a:b]` as Base-origin lines; the source
indexes `base_lines[i]`, modelled as a lookup with an (unreached, see the
safety theorem) default. -/
def copyBase (base : List String) (a b : Nat) : List ALine :=
  (copyIndices a b).map (fun i => ⟨(base.get? i).getD "", AOrigin.base⟩)

/-- Lines 288-299: the pre-hunk phase.  Computes
`gap = (old_start - 1) - current_base_line_idx` (Python int arithmetic):
if positive, copies that many base lines (end clamped to `len(base)`) and
advances the cursor; if negative, re-syncs the cursor to `old_start - 1`
only when `old_start > 0` ("old_start_1based can be 0 for new files");
returns the copied lines and the new cursor. -/
def preHunkCopy (base : List String) (idx : Nat) (old_start : Nat) : List ALine × Nat :=
  let gap : Int := (old_start : Int) - 1 - (idx : Int)
  if 0 < gap then
    let endCopy := min (idx + gap.toNat) base.length
    (copyBase base idx endCopy, endCopy)
  else if gap < 0 then
    if 0 < old_start then ([], old_start - 1) else ([], idx)
  else ([], idx)

/-- Lines 301-321: one hunk body line.  `+` emits an added line (annotated
when PR details were supplied) without moving the cursor; `-` advances the
cursor (guarded by `idx < len(base)`) emitting nothing; space emits the
context text as a plain line and advances the cursor (guarded); backslash
does nothing. -/
def bodyStep (baseLen : Nat) (ann : Option PRInfo) (st : Nat × List ALine) (l : String) :
    Nat × List ALine :=
  let content := dropFirst l
  if strStarts ['+'] l then
    match ann with
    | some pr => (st.1, st.2 ++ [⟨content, AOrigin.addedAnnotated pr⟩])
    | none => (st.1, st.2 ++ [⟨content, AOrigin.addedPlain⟩])
  else if strStarts ['-'] l then
    (if st.1 < baseLen then st.1 + 1 else st.1, st.2)
  else if strStarts [' '] l then
    (if st.1 < baseLen then st.1 + 1 else st.1, st.2 ++ [⟨content, AOrigin.base⟩])
  else
    st

/-- Lines 283-321: one `(header, body)` section.  A header on which the
regex search fails is skipped (`continue`), dropping the hunk and its
body; otherwise the pre-hunk phase runs and the body is walked. -/
def applyHunk (base : List String) (ann : Option PRInfo)
    (st : Nat × List ALine) (sec : String × List String) : Nat × List ALine :=
  match parseHeader sec.1 with
  | none => st
  | some old_start =>
    let (copied, idx2) := preHunkCopy base st.1 old_start
    sec.2.foldl (bodyStep base.length ann) (idx2, st.2 ++ copied)

/-- The main loop of `apply_patch_to_content` over already-built sections,
followed by the verbatim tail copy (lines 281-325). -/
def applyFromSections (base : List String) (sections : List (String × List String))
    (ann : Option PRInfo) : List ALine :=
  let st := sections.foldl (applyHunk base ann) (0, [])
  st.2 ++ copyBase base st.1 base.length

/-- Model of `apply_patch_to_content(base_content_str, patch_string,
pr_details_for_annotation)` with both strings modelled by their line
lists.  The early returns for falsy `patch_string` and for
`hunk_sections == []` both return the escaped base string, which equals
rendering the all-Base line list this definition produces in those cases
(zero sections leave the fold at `(0, [])`, so the tail copy emits the
whole base). -/
def apply_patch_to_content (base : List String) (patchLines : List String)
    (ann : Option PRInfo) : List ALine :=
  applyFromSections base (hunkSections patchLines) ann

/-- The HTML string actually returned by the source:
`"\n".join(patched_lines_html_result)`. -/
def applyPatchHtml (base : List String) (patchLines : List String)
    (ann : Option PRInfo) : String :=
  String.intercalate "\n" ((apply_patch_to_content base patchLines ann).map renderALine)

/-- Which kind of line dictionary the merger builds: `'type': 'base'` or
`'type': 'added'`. -/
inductive LineType where
  | base
  | added
deriving DecidableEq, Repr

/-- One line dictionary of the interleaved view:
`{'text': …, 'type': …, 'pr_info': …}` (text already HTML-escaped by the
source). -/
structure MLine where
  text : String
  type : LineType
  pr_info : Option PRInfo
deriving DecidableEq, Repr

/-- The per-PR record looked up in `relevant_prs_data`: the patch text
(`none` models an absent/None/empty `"patch"` entry, which the source
skips via `if not patch_string: continue`), plus the metadata copied into
`pr_details`. -/
structure PRData where
  patch : Option (List String)
  title : String
  html_url : String
  local_pr_page_link : String
deriving DecidableEq, Repr

/-- The `pr_details` dictionary built for one source (lines 698-703):
the key string as `number`, the escaped title, and the two links. -/
def mkPrDetails (key : String) (d : PRData) : PRInfo :=
  ⟨key, escapeHtml d.title, d.html_url, d.local_pr_page_link⟩

/-- Type of `additions_map`: only ever read by pointwise lookup, so modelled as a
function from insertion key to the accumulated list at that key. -/
def AddMap : Type := Int → List MLine

/-- The empty `additions_map`. -/
def emptyAddMap : AddMap := fun _ => []

/-- Model of `additions_map.setdefault(key, []).append(obj)` (lines 731-733). -/
def addInsertion (m : AddMap) (k : Int) (obj : MLine) : AddMap :=
  fun j => if j = k then m k ++ [obj] else m j

/-- Lines 726-737: one hunk body line of the merger.  `+` records an added
line at `target + offset`; `-` and space advance the within-hunk offset;
backslash (and nothing else can occur) does neither. -/
def mergeBodyStep (pr : PRInfo) (target : Int) (st : Nat × AddMap) (l : String) :
    Nat × AddMap :=
  if strStarts ['+'] l then
    (st.1, addInsertion st.2 (target + (st.1 : Int))
      ⟨escapeHtml (dropFirst l), LineType.added, some pr⟩)
  else if strStarts ['-'] l then
    (st.1 + 1, st.2)
  else if strStarts [' '] l then
    (st.1 + 1, st.2)
  else
    st

/-- Lines 719-737: one `(header, body)` section of the merger.  An
unmatched header is skipped; otherwise
`target_insertion_line_0_idx = old_start - 1 if old_start > 0 else -1`
and the body is walked with a fresh offset. -/
def mergeHunk (pr : PRInfo) (m : AddMap) (sec : String × List String) : AddMap :=
  match parseHeader sec.1 with
  | none => m
  | some old_start =>
    let target : Int := if 0 < old_start then (old_start : Int) - 1 else -1
    (sec.2.foldl (mergeBodyStep pr target) (0, m)).2

/-- Lines 692-737: one source (one PR) of the merger: skip when its patch
text is falsy, otherwise build `pr_details`, section its patch and process
every hunk. -/
def mergeSource (m : AddMap) (entry : String × PRData) : AddMap :=
  match entry.2.patch with
  | none => m
  | some patchLines =>
    (hunkSections patchLines).foldl (mergeHunk (mkPrDetails entry.1 entry.2)) m

/-- Model of `int(key)` for the digit-string PR-number keys the caller supplies
(non-digit keys would raise in the source and are outside the model). -/
def prKey (s : String) : Nat :=
  digitsToNat s.data

/-- Model of `sorted(relevant_prs_data.keys(), key=lambda x: int(x))` followed by
the per-key dict lookups (line 690-693).  The association list models the
dict in insertion order; `List.insertionSort` with `≤` on the numeric
keys is a stable ascending sort, exactly the Python `sorted` built-in.  The lookup
never fails for keys taken from the list itself. -/
def sortedEntries (prs : List (String × PRData)) : List (String × PRData) :=
  (List.insertionSort (fun a b => prKey a ≤ prKey b) (prs.map Prod.fst)).filterMap
    (fun k => (prs.lookup k).map (fun d => (k, d)))

/-- The fully accumulated `additions_map` after all sources are processed
in sorted order. -/
def mergeMap (prs : List (String × PRData)) : AddMap :=
  (sortedEntries prs).foldl mergeSource emptyAddMap

/-- Lines 739-750: emit all insertions keyed `-1`, then every base line
(escaped, `'type': 'base'`, no PR info) each followed by the insertions
keyed at its index. -/
def mergeFinal (base : List String) (m : AddMap) : List MLine :=
  m (-1) ++ base.enum.flatMap
    (fun p => ⟨escapeHtml p.2, LineType.base, none⟩ :: m (p.1 : Int))

/-- Model of `generate_interleaved_lines_for_all_prs(base_content_str,
relevant_prs_data)` with the base modelled by its line list and the dict
by an association list in insertion order.  (The `interleaved_lines`
local built on line 687 is dead: the source never reads it.) -/
def generate_interleaved_lines_for_all_prs (base : List String)
    (prs : List (String × PRData)) : List MLine :=
  mergeFinal base (mergeMap prs)

/-- Cursor component of `bodyStep` alone: how one hunk body line moves
`current_base_line_idx` (it never reads `base_lines`). -/
def bodyStepIdx (baseLen : Nat) (idx : Nat) (l : String) : Nat :=
  if strStarts ['+'] l then idx
  else if strStarts ['-'] l then (if idx < baseLen then idx + 1 else idx)
  else if strStarts [' '] l then (if idx < baseLen then idx + 1 else idx)
  else idx

/-- Instrumented twin of `applyHunk` recording, instead of the emitted
lines, the indices at which `base_lines[i]` is read (reads happen only in
the verbatim copy loop of the pre-hunk phase; `-`/space lines compare the
cursor against `len(base)` but read nothing). -/
def applyHunkAcc (baseLen : Nat) (st : Nat × List Nat) (sec : String × List String) :
    Nat × List Nat :=
  match parseHeader sec.1 with
  | none => st
  | some old_start =>
    let gap : Int := (old_start : Int) - 1 - (st.1 : Int)
    let pre : List Nat × Nat :=
      if 0 < gap then
        let endCopy := min (st.1 + gap.toNat) baseLen
        (copyIndices st.1 endCopy, endCopy)
      else if gap < 0 then
        if 0 < old_start then ([], old_start - 1) else ([], st.1)
      else ([], st.1)
    (sec.2.foldl (bodyStepIdx baseLen) pre.2, st.2 ++ pre.1)

/-- All indices at which `apply_patch_to_content` reads `base_lines[i]`,
in read order: the pre-hunk copies and the final tail copy. -/
def applyAccesses (base : List String) (patchLines : List String) : List Nat :=
  let st := (hunkSections patchLines).foldl (applyHunkAcc base.length) (0, [])
  st.2 ++ copyIndices st.1 base.length

/-- The `(insertion_key, line_obj)` append events of one hunk body in
processing order, with the running within-hunk offset made explicit
(mirrors `mergeBodyStep`). -/
def bodyEventsAux (pr : PRInfo) (target : Int) : List String → Nat → List (Int × MLine)
  | [], _ => []
  | l :: ls, off =>
    if strStarts ['+'] l then
      (target + (off : Int), ⟨escapeHtml (dropFirst l), LineType.added, some pr⟩)
        :: bodyEventsAux pr target ls off
    else if strStarts ['-'] l then bodyEventsAux pr target ls (off + 1)
    else if strStarts [' '] l then bodyEventsAux pr target ls (off + 1)
    else bodyEventsAux pr target ls off

/-- The append events of one `(header, body)` section (none when the
header does not parse). -/
def hunkEvents (pr : PRInfo) (sec : String × List String) : List (Int × MLine) :=
  match parseHeader sec.1 with
  | none => []
  | some old_start =>
    bodyEventsAux pr (if 0 < old_start then (old_start : Int) - 1 else -1) sec.2 0

/-- The append events of one source, in processing order. -/
def sourceEvents (entry : String × PRData) : List (Int × MLine) :=
  match entry.2.patch with
  | none => []
  | some patchLines =>
    (hunkSections patchLines).flatMap (hunkEvents (mkPrDetails entry.1 entry.2))

/-- Replay a list of append events onto an `additions_map`. -/
def applyEvents (m : AddMap) (evs : List (Int × MLine)) : AddMap :=
  evs.foldl (fun m e => addInsertion m e.1 e.2) m

/-- All append events of a merge call, in processing order. -/
def allEvents (prs : List (String × PRData)) : List (Int × MLine) :=
  (sortedEntries prs).flatMap sourceEvents

/-- Number of `Added` body lines of one section (0 when its header does
not parse, since the whole hunk is dropped). -/
def hunkAddedCount (sec : String × List String) : Nat :=
  match parseHeader sec.1 with
  | none => 0
  | some _ => (sec.2.filter (fun l => strStarts ['+'] l)).length

/-- Number of `Added` lines contributed by the patch of one source. -/
def sourceAddedCount (entry : String × PRData) : Nat :=
  match entry.2.patch with
  | none => 0
  | some patchLines => ((hunkSections patchLines).map hunkAddedCount).sum

/-- Total `Added`-line count across all hunks of all supplied patches. -/
def addedLineCount (prs : List (String × PRData)) : Nat :=
  (prs.map sourceAddedCount).sum

/-- Two hunk sections that agree on their body and on the result of the
header search (in particular: two well-formed headers that differ only in
the `old_count`, `new_start`, `new_count` fields, which the source never
reads). -/
def SameUpToCounts (s t : String × List String) : Prop :=
  parseHeader s.1 = parseHeader t.1 ∧ s.2 = t.2


lemma copyBase_eq_take_drop (base : List String) :
    ∀ (n a : Nat), a + n ≤ base.length →
      copyBase base a (a + n) = ((base.drop a).take n).map (fun t => ⟨t, AOrigin.base⟩) := by
  intro n
  induction n with
  | zero =>
    intro a _
    simp [copyBase, copyIndices]
  | succ n ih =>
    intro a h
    have ha : a < base.length := by omega
    have hdrop : base.drop a = base[a] :: base.drop (a + 1) :=
      List.drop_eq_getElem_cons ha
    have hrange : List.range' a (a + (n + 1) - a) = a :: List.range' (a + 1) n := by
      have : a + (n + 1) - a = n + 1 := by omega
      rw [this, List.range'_succ]
    have hget : base.get? a = some base[a] := by
      rw [List.get?_eq_getElem?, List.getElem?_eq_getElem ha]
    have ih' := ih (a + 1) (by omega)
    simp only [copyBase, copyIndices] at ih' ⊢
    rw [hrange, List.map_cons, hget, hdrop, List.take_succ_cons, List.map_cons]
    have : a + 1 + n - (a + 1) = n := by omega
    rw [this] at ih'
    rw [ih']
    rfl

lemma copyBase_full (base : List String) :
    copyBase base 0 base.length = base.map (fun t => ⟨t, AOrigin.base⟩) := by
  have h := copyBase_eq_take_drop base base.length 0 (by omega)
  simpa using h

lemma hunkSectionsAux_no_at :
    ∀ (ls : List String), (∀ l ∈ ls, strStarts ['@', '@'] l = false) →
      hunkSectionsAux ls none = [] := by
  intro ls
  induction ls with
  | nil => intro _; rfl
  | cons l ls ih =>
    intro h
    have hl : strStarts ['@', '@'] l = false := h l (List.mem_cons_self l ls)
    simp only [hunkSectionsAux, hl]
    exact ih (fun x hx => h x (List.mem_cons_of_mem l hx))

/-- C6: reconstruction with a patch of zero hunks is the identity on the
base: it returns exactly the base lines, in order, all with Base origin;
both the empty patch text and any patch text with no `@@` line yield zero
hunks.  (The reconstruction is a total function, so no input raises.) -/
theorem C6_empty_patch_identity :
    (∀ (base patchLines : List String) (ann : Option PRInfo),
        hunkSections patchLines = [] →
        apply_patch_to_content base patchLines ann =
          base.map (fun t => ⟨t, AOrigin.base⟩))
    ∧ hunkSections [] = []
    ∧ (∀ patchLines : List String,
        (∀ l ∈ patchLines, strStarts ['@', '@'] l = false) →
        hunkSections patchLines = []) := by
  refine ⟨?_, rfl, fun ls h => hunkSectionsAux_no_at ls h⟩
  intro base patchLines ann h
  unfold apply_patch_to_content applyFromSections
  rw [h]
  simp only [List.foldl_nil, List.nil_append]
  exact copyBase_full base

/-- C6 witness: on base `["a", "b"]` and empty patch text the
reconstruction returns the two base lines unchanged. -/
theorem C6_empty_patch_identity_witness :
    hunkSections [] = [] ∧
    apply_patch_to_content ["a", "b"] [] none =
      [⟨"a", AOrigin.base⟩, ⟨"b", AOrigin.base⟩] :=
  ⟨rfl, C6_empty_patch_identity.1 ["a", "b"] [] none rfl⟩

lemma foldl_filter_parseable {σ : Type} (f : σ → (String × List String) → σ)
    (hf : ∀ (st : σ) (s : String × List String), parseHeader s.1 = none → f st s = st) :
    ∀ (sections : List (String × List String)) (st : σ),
      sections.foldl f st =
        (sections.filter (fun s => (parseHeader s.1).isSome)).foldl f st := by
  intro sections
  induction sections with
  | nil => intro st; rfl
  | cons s ss ih =>
    intro st
    cases hp : parseHeader s.1 with
    | none =>
      rw [List.foldl_cons, hf st s hp, List.filter_cons]
      simp only [hp, Option.isSome_none, Bool.false_eq_true, if_false]
      exact ih st
    | some o =>
      rw [List.foldl_cons, List.filter_cons]
      simp only [hp, Option.isSome_some, if_true, List.foldl_cons]
      exact ih (f st s)

/-- C5: the hunk parser never fails: a `(header, body)` section whose
header line does not match the regex contributes nothing — the hunk and
all body lines accumulated under it are skipped whole — and processing
continues with the remaining sections, which survive in their original
order (the `filter` keeps relative order).  This holds for the
single-patch reconstructor and the merger alike; both are total Lean
functions, so no input can raise. -/
theorem C5_unparseable_header_dropped :
    (∀ (base : List String) (ann : Option PRInfo) (st : Nat × List ALine)
        (sections : List (String × List String)),
        sections.foldl (applyHunk base ann) st =
          (sections.filter (fun s => (parseHeader s.1).isSome)).foldl
            (applyHunk base ann) st)
    ∧ (∀ (pr : PRInfo) (m : AddMap) (sections : List (String × List String)),
        sections.foldl (mergeHunk pr) m =
          (sections.filter (fun s => (parseHeader s.1).isSome)).foldl
            (mergeHunk pr) m) := by
  constructor
  · intro base ann st sections
    refine foldl_filter_parseable _ (fun st s hs => ?_) sections st
    unfold applyHunk
    rw [hs]
  · intro pr m sections
    refine foldl_filter_parseable _ (fun st s hs => ?_) sections m
    unfold mergeHunk
    rw [hs]

lemma applyHunk_congr (base : List String) (ann : Option PRInfo)
    (st : Nat × List ALine) (s t : String × List String) (h : SameUpToCounts s t) :
    applyHunk base ann st s = applyHunk base ann st t := by
  unfold applyHunk
  rw [h.1, h.2]

lemma mergeHunk_congr (pr : PRInfo) (m : AddMap)
    (s t : String × List String) (h : SameUpToCounts s t) :
    mergeHunk pr m s = mergeHunk pr m t := by
  unfold mergeHunk
  rw [h.1, h.2]

/-- C10: both engines consult only `old_start` of each hunk header: two
section lists whose headers produce the same `re.search` result (so in
particular well-formed headers differing only in `old_count`,
`new_start`, `new_count`) and whose bodies are equal produce identical
reconstruction output and identical merge accumulation. -/
theorem C10_only_old_start_read :
    ∀ (sections₁ sections₂ : List (String × List String)),
      List.Forall₂ SameUpToCounts sections₁ sections₂ →
      (∀ (base : List String) (ann : Option PRInfo),
          applyFromSections base sections₁ ann = applyFromSections base sections₂ ann)
      ∧ (∀ (pr : PRInfo) (m : AddMap),
          sections₁.foldl (mergeHunk pr) m = sections₂.foldl (mergeHunk pr) m) := by
  intro sections₁ sections₂ hrel
  constructor
  · intro base ann
    unfold applyFromSections
    have : sections₁.foldl (applyHunk base ann) (0, []) =
        sections₂.foldl (applyHunk base ann) (0, []) := by
      generalize (0, ([] : List ALine)) = st
      induction hrel generalizing st with
      | nil => rfl
      | cons h _ ih =>
        rw [List.foldl_cons, List.foldl_cons, applyHunk_congr base ann st _ _ h]
        exact ih _
    rw [this]
  · intro pr m
    induction hrel generalizing m with
    | nil => rfl
    | cons h _ ih =>
      rw [List.foldl_cons, List.foldl_cons, mergeHunk_congr pr m _ _ h]
      exact ih _

/-- C10 witness: two headers sharing `old_start = 2` but differing in all
other header fields give identical outputs on a concrete base. -/
theorem C10_only_old_start_read_witness :
    List.Forall₂ SameUpToCounts
      [("@@ -2,1 +2,2 @@", [" b", "+x"])] [("@@ -2,9 +7,5 @@", [" b", "+x"])]
    ∧ applyFromSections ["a", "b", "c"] [("@@ -2,1 +2,2 @@", [" b", "+x"])] none =
        applyFromSections ["a", "b", "c"] [("@@ -2,9 +7,5 @@", [" b", "+x"])] none := by
  have hrel : List.Forall₂ SameUpToCounts
      [("@@ -2,1 +2,2 @@", [" b", "+x"])] [("@@ -2,9 +7,5 @@", [" b", "+x"])] :=
    List.Forall₂.cons ⟨by decide, rfl⟩ List.Forall₂.nil
  exact ⟨hrel, (C10_only_old_start_read _ _ hrel).1 ["a", "b", "c"] none⟩

/-- C3 (amended): when the computed gap `(old_start - 1) - base_idx` is
negative, the cursor is snapped to `old_start - 1` only for hunks with
`old_start > 0`; for a hunk with `old_start = 0` the cursor is left where
it was (the source guards the snap with `if old_start_1based > 0`).  In
both cases nothing is copied and nothing is raised. -/
theorem C3_negative_gap_resync :
    ∀ (base : List String) (idx old_start : Nat),
      (old_start : Int) - 1 - (idx : Int) < 0 →
      preHunkCopy base idx old_start =
        ([], if 0 < old_start then old_start - 1 else idx) := by
  intro base idx old_start h
  unfold preHunkCopy
  have h1 : ¬ (0 : Int) < (old_start : Int) - 1 - (idx : Int) := by omega
  rw [if_neg h1, if_pos h]
  by_cases h2 : 0 < old_start
  · rw [if_pos h2, if_pos h2]
  · rw [if_neg h2, if_neg h2]

/-- C3 witness: a second hunk with `old_start = 3` reached at cursor 5 has
gap `-3 < 0` and re-syncs the cursor to `3 - 1 = 2`. -/
theorem C3_negative_gap_resync_witness :
    ((3 : Nat) : Int) - 1 - ((5 : Nat) : Int) < 0
    ∧ preHunkCopy ["a", "b", "c", "d", "e", "f"] 5 3 = ([], 2) :=
  ⟨by decide, C3_negative_gap_resync ["a", "b", "c", "d", "e", "f"] 5 3 (by decide)⟩

/-- C3 counterexample: for a hunk with `old_start = 0` reached at cursor 2
the gap `-3` is negative, yet the cursor stays at 2 instead of being
snapped to `max(old_start - 1, 0) = 0` as the claim states. -/
theorem C3_negative_gap_resync_counterexample :
    ((0 : Nat) : Int) - 1 - ((2 : Nat) : Int) < 0
    ∧ (preHunkCopy ["a", "b", "c"] 2 0).2 = 2
    ∧ ¬ (((preHunkCopy ["a", "b", "c"] 2 0).2 : Int) = max ((0 : Int) - 1) 0) := by
  refine ⟨by decide, rfl, ?_⟩
  decide

/-- C4 (amended): an `Added` body line is emitted without advancing the
cursor; with an annotation it carries the `pr-annotated` span, but
without one it is emitted as a plain `added-line` span — which renders
differently from an unchanged base line (the claim text "origin Base, the
same way as an unchanged base line" is what fails). -/
theorem C4_added_line_emission :
    ∀ (baseLen : Nat) (ann : Option PRInfo) (st : Nat × List ALine) (l : String),
      strStarts ['+'] l = true →
      bodyStep baseLen ann st l =
        (st.1, st.2 ++ [⟨dropFirst l,
          match ann with
          | some pr => AOrigin.addedAnnotated pr
          | none => AOrigin.addedPlain⟩])
      ∧ (∀ t : String,
          renderALine ⟨t, AOrigin.addedPlain⟩ ≠ renderALine ⟨t, AOrigin.base⟩) := by
  intro baseLen ann st l h
  constructor
  · unfold bodyStep
    rw [h]
    cases ann with
    | some pr => rfl
    | none => rfl
  · intro t hEq
    have hLen := congrArg String.length hEq
    simp only [renderALine, String.length_append] at hLen
    rw [show ("<span class=\"added-line\">" : String).length = 25 from rfl,
      show ("</span>" : String).length = 7 from rfl] at hLen
    omega

/-- C4 witness: `+x` with no annotation is emitted as an `added-line`
span (not as a base line) and the cursor stays at 3. -/
theorem C4_added_line_emission_witness :
    strStarts ['+'] "+x" = true
    ∧ bodyStep 5 none (3, []) "+x" = (3, [⟨"x", AOrigin.addedPlain⟩])
    ∧ renderALine ⟨"x", AOrigin.addedPlain⟩ ≠ renderALine ⟨"x", AOrigin.base⟩ := by
  have h := C4_added_line_emission 5 none (3, []) "+x" (by decide)
  exact ⟨by decide, h.1, h.2 "x"⟩

/-- C4 counterexample: reconstructing an empty base with the single hunk
`@@ -0,0 +1 @@ / +x` and no annotation emits `x` as an `added-line` span,
not with Base origin, and its rendered HTML differs from that of a base line. -/
theorem C4_added_line_emission_counterexample :
    apply_patch_to_content [] ["@@ -0,0 +1 @@", "+x"] none =
      [⟨"x", AOrigin.addedPlain⟩]
    ∧ apply_patch_to_content [] ["@@ -0,0 +1 @@", "+x"] none ≠
        [⟨"x", AOrigin.base⟩]
    ∧ renderALine ⟨"x", AOrigin.addedPlain⟩ ≠ renderALine ⟨"x", AOrigin.base⟩ := by
  refine ⟨by decide, by decide, by decide⟩

lemma bodyStep_fst (baseLen : Nat) (ann : Option PRInfo)
    (st : Nat × List ALine) (l : String) :
    (bodyStep baseLen ann st l).1 = bodyStepIdx baseLen st.1 l := by
  unfold bodyStep bodyStepIdx
  by_cases h1 : strStarts ['+'] l = true
  · rw [if_pos h1, if_pos h1]
    cases ann with
    | some pr => rfl
    | none => rfl
  · rw [if_neg h1, if_neg h1]
    by_cases h2 : strStarts ['-'] l = true
    · rw [if_pos h2, if_pos h2]
    · rw [if_neg h2, if_neg h2]
      by_cases h3 : strStarts [' '] l = true
      · rw [if_pos h3, if_pos h3]
      · rw [if_neg h3, if_neg h3]

lemma bodyFold_fst (baseLen : Nat) (ann : Option PRInfo) :
    ∀ (body : List String) (st : Nat × List ALine),
      (body.foldl (bodyStep baseLen ann) st).1 = body.foldl (bodyStepIdx baseLen) st.1 := by
  intro body
  induction body with
  | nil => intro st; rfl
  | cons l ls ih =>
    intro st
    rw [List.foldl_cons, List.foldl_cons, ih, bodyStep_fst]

lemma applyHunk_fst (base : List String) (ann : Option PRInfo)
    (st : Nat × List ALine) (stAcc : Nat × List Nat) (h : st.1 = stAcc.1)
    (sec : String × List String) :
    (applyHunk base ann st sec).1 = (applyHunkAcc base.length stAcc sec).1 := by
  unfold applyHunk applyHunkAcc preHunkCopy
  cases hp : parseHeader sec.1 with
  | none => exact h
  | some o =>
    simp only [bodyFold_fst, h]
    by_cases h1 : (0 : Int) < (o : Int) - 1 - (stAcc.1 : Int)
    · rw [if_pos h1, if_pos h1]
    · rw [if_neg h1, if_neg h1]
      by_cases h2 : (o : Int) - 1 - (stAcc.1 : Int) < 0
      · rw [if_pos h2, if_pos h2]
        by_cases h3 : 0 < o
        · rw [if_pos h3, if_pos h3]
        · rw [if_neg h3, if_neg h3]
      · rw [if_neg h2, if_neg h2]

lemma applyFold_fst (base : List String) (ann : Option PRInfo) :
    ∀ (sections : List (String × List String)) (st : Nat × List ALine)
      (stAcc : Nat × List Nat), st.1 = stAcc.1 →
      (sections.foldl (applyHunk base ann) st).1 =
        (sections.foldl (applyHunkAcc base.length) stAcc).1 := by
  intro sections
  induction sections with
  | nil => intro st stAcc h; exact h
  | cons s ss ih =>
    intro st stAcc h
    rw [List.foldl_cons, List.foldl_cons]
    exact ih _ _ (applyHunk_fst base ann st stAcc h s)

lemma mem_copyIndices {a b i : Nat} (h : i ∈ copyIndices a b) : a ≤ i ∧ i < b := by
  unfold copyIndices at h
  rw [List.mem_range'] at h
  omega

lemma bodyFoldIdx_le (baseLen : Nat) :
    ∀ (body : List String) (idx : Nat), idx ≤ baseLen →
      body.foldl (bodyStepIdx baseLen) idx ≤ baseLen := by
  intro body
  induction body with
  | nil => intro idx h; exact h
  | cons l ls ih =>
    intro idx h
    rw [List.foldl_cons]
    refine ih _ ?_
    unfold bodyStepIdx
    repeat' split
    all_goals omega

lemma applyHunkAcc_inv (baseLen : Nat) (st : Nat × List Nat)
    (h1 : st.1 ≤ baseLen) (h2 : ∀ i ∈ st.2, i < baseLen) (sec : String × List String) :
    (applyHunkAcc baseLen st sec).1 ≤ baseLen
    ∧ ∀ i ∈ (applyHunkAcc baseLen st sec).2, i < baseLen := by
  unfold applyHunkAcc
  cases hp : parseHeader sec.1 with
  | none => exact ⟨h1, h2⟩
  | some o =>
    simp only
    by_cases hg : (0 : Int) < (o : Int) - 1 - (st.1 : Int)
    · rw [if_pos hg]
      simp only
      constructor
      · exact bodyFoldIdx_le baseLen _ _ (by omega)
      · intro i hi
        rcases List.mem_append.mp hi with hi | hi
        · exact h2 i hi
        · have := mem_copyIndices hi
          omega
    · rw [if_neg hg]
      by_cases hg2 : (o : Int) - 1 - (st.1 : Int) < 0
      · rw [if_pos hg2]
        by_cases h3 : 0 < o
        · rw [if_pos h3]
          simp only
          refine ⟨bodyFoldIdx_le baseLen _ _ (by omega), ?_⟩
          intro i hi
          rcases List.mem_append.mp hi with hi | hi
          · exact h2 i hi
          · simp at hi
        · rw [if_neg h3]
          simp only
          refine ⟨bodyFoldIdx_le baseLen _ _ h1, ?_⟩
          intro i hi
          rcases List.mem_append.mp hi with hi | hi
          · exact h2 i hi
          · simp at hi
      · rw [if_neg hg2]
        simp only
        refine ⟨bodyFoldIdx_le baseLen _ _ h1, ?_⟩
        intro i hi
        rcases List.mem_append.mp hi with hi | hi
        · exact h2 i hi
        · simp at hi

lemma applyFoldAcc_inv (baseLen : Nat) :
    ∀ (sections : List (String × List String)) (st : Nat × List Nat),
      st.1 ≤ baseLen → (∀ i ∈ st.2, i < baseLen) →
      (sections.foldl (applyHunkAcc baseLen) st).1 ≤ baseLen
      ∧ ∀ i ∈ (sections.foldl (applyHunkAcc baseLen) st).2, i < baseLen := by
  intro sections
  induction sections with
  | nil => intro st h1 h2; exact ⟨h1, h2⟩
  | cons s ss ih =>
    intro st h1 h2
    rw [List.foldl_cons]
    have h := applyHunkAcc_inv baseLen st h1 h2 s
    exact ih _ h.1 h.2

/-- C9: the reconstruction never reads `base_lines` at or past
`len(base)`: every index at which the source evaluates `base_lines[i]`
(pre-hunk copies and the final tail copy, as recorded by the instrumented
twin `applyAccesses`) is strictly below `len(base)`, for every base,
patch and annotation; the twin is faithful: it threads the cursor exactly
as `apply_patch_to_content` does. -/
theorem C9_no_out_of_range_access :
    ∀ (base patchLines : List String),
      (∀ i ∈ applyAccesses base patchLines, i < base.length)
      ∧ ∀ ann : Option PRInfo,
          ((hunkSections patchLines).foldl (applyHunk base ann) (0, [])).1 =
            ((hunkSections patchLines).foldl (applyHunkAcc base.length) (0, [])).1 := by
  intro base patchLines
  constructor
  · intro i hi
    unfold applyAccesses at hi
    have h := applyFoldAcc_inv base.length (hunkSections patchLines) (0, [])
      (by omega) (by intro j hj; simp at hj)
    rcases List.mem_append.mp hi with hi | hi
    · exact h.2 i hi
    · have := mem_copyIndices hi
      omega
  · intro ann
    exact applyFold_fst base ann (hunkSections patchLines) (0, []) (0, []) rfl

/-- C9 witness: on base `["a","b","c"]` with a hunk at `old_start = 2`,
the recorded reads are exactly indices 0 (pre-hunk copy) and 2 (tail
copy), both below 3. -/
theorem C9_no_out_of_range_access_witness :
    applyAccesses ["a", "b", "c"] ["@@ -2,1 +2,2 @@", " b", "+x"] = [0, 2]
    ∧ (0 : Nat) ∈ applyAccesses ["a", "b", "c"] ["@@ -2,1 +2,2 @@", " b", "+x"]
    ∧ 0 < ["a", "b", "c"].length :=
  ⟨by decide,
   by decide,
   (C9_no_out_of_range_access ["a", "b", "c"] ["@@ -2,1 +2,2 @@", " b", "+x"]).1 0
     (by decide)⟩

lemma applyEvents_append (m : AddMap) (evs₁ evs₂ : List (Int × MLine)) :
    applyEvents m (evs₁ ++ evs₂) = applyEvents (applyEvents m evs₁) evs₂ := by
  unfold applyEvents
  rw [List.foldl_append]

lemma mergeBody_eq_events (pr : PRInfo) (target : Int) :
    ∀ (body : List String) (off : Nat) (m : AddMap),
      (body.foldl (mergeBodyStep pr target) (off, m)).2 =
        applyEvents m (bodyEventsAux pr target body off) := by
  intro body
  induction body with
  | nil => intro off m; rfl
  | cons l ls ih =>
    intro off m
    rw [List.foldl_cons]
    unfold mergeBodyStep bodyEventsAux
    by_cases h1 : strStarts ['+'] l = true
    · rw [if_pos h1, if_pos h1]
      exact ih off _
    · rw [if_neg h1, if_neg h1]
      by_cases h2 : strStarts ['-'] l = true
      · rw [if_pos h2, if_pos h2]
        exact ih (off + 1) m
      · rw [if_neg h2, if_neg h2]
        by_cases h3 : strStarts [' '] l = true
        · rw [if_pos h3, if_pos h3]
          exact ih (off + 1) m
        · rw [if_neg h3, if_neg h3]
          exact ih off m

lemma mergeHunk_eq_events (pr : PRInfo) (m : AddMap) (sec : String × List String) :
    mergeHunk pr m sec = applyEvents m (hunkEvents pr sec) := by
  unfold mergeHunk hunkEvents
  cases hp : parseHeader sec.1 with
  | none => rfl
  | some o => exact mergeBody_eq_events pr _ sec.2 0 m

lemma mergeHunks_fold_eq_events (pr : PRInfo) :
    ∀ (sections : List (String × List String)) (m : AddMap),
      sections.foldl (mergeHunk pr) m =
        applyEvents m (sections.flatMap (hunkEvents pr)) := by
  intro sections
  induction sections with
  | nil => intro m; rfl
  | cons s ss ih =>
    intro m
    rw [List.foldl_cons, List.flatMap_cons, applyEvents_append,
      ← mergeHunk_eq_events]
    exact ih _

lemma mergeSource_eq_events (m : AddMap) (entry : String × PRData) :
    mergeSource m entry = applyEvents m (sourceEvents entry) := by
  unfold mergeSource sourceEvents
  cases hp : entry.2.patch with
  | none => rfl
  | some patchLines => exact mergeHunks_fold_eq_events _ _ m

lemma mergeMap_eq_events (prs : List (String × PRData)) :
    mergeMap prs = applyEvents emptyAddMap (allEvents prs) := by
  unfold mergeMap allEvents
  generalize sortedEntries prs = entries
  generalize emptyAddMap = m
  induction entries generalizing m with
  | nil => rfl
  | cons e es ih =>
    rw [List.foldl_cons, List.flatMap_cons, applyEvents_append,
      ← mergeSource_eq_events]
    exact ih _

lemma applyEvents_lookup (k : Int) :
    ∀ (evs : List (Int × MLine)) (m : AddMap),
      applyEvents m evs k = m k ++ applyEvents emptyAddMap evs k := by
  intro evs
  induction evs with
  | nil => intro m; simp [applyEvents, emptyAddMap]
  | cons e es ih =>
    intro m
    show applyEvents (addInsertion m e.1 e.2) es k =
      m k ++ applyEvents (addInsertion emptyAddMap e.1 e.2) es k
    rw [ih (addInsertion m e.1 e.2), ih (addInsertion emptyAddMap e.1 e.2)]
    unfold addInsertion emptyAddMap
    by_cases hk : k = e.1
    · subst hk
      rw [if_pos rfl, if_pos rfl]
      simp
    · rw [if_neg hk, if_neg hk]
      simp

lemma applyEvents_eq_filter (k : Int) :
    ∀ (evs : List (Int × MLine)),
      applyEvents emptyAddMap evs k =
        (evs.filter (fun e => decide (e.1 = k))).map Prod.snd := by
  intro evs
  induction evs with
  | nil => rfl
  | cons e es ih =>
    show applyEvents (addInsertion emptyAddMap e.1 e.2) es k = _
    rw [applyEvents_lookup k es, List.filter_cons]
    unfold addInsertion emptyAddMap
    by_cases hk : e.1 = k
    · rw [if_pos (hk.symm), if_pos (by simpa using hk)]
      simpa using ih
    · rw [if_neg (fun h => hk h.symm), if_neg (by simpa using hk)]
      simpa using ih

lemma bodyEventsAux_added (pr : PRInfo) (target : Int) :
    ∀ (body : List String) (off : Nat) (e : Int × MLine),
      e ∈ bodyEventsAux pr target body off →
      e.2.type = LineType.added ∧ e.2.pr_info = some pr ∧ target ≤ e.1 := by
  intro body
  induction body with
  | nil => intro off e he; simp [bodyEventsAux] at he
  | cons l ls ih =>
    intro off e he
    unfold bodyEventsAux at he
    by_cases h1 : strStarts ['+'] l = true
    · rw [if_pos h1] at he
      rcases List.mem_cons.mp he with he | he
      · subst he
        refine ⟨rfl, rfl, by omega⟩
      · exact ih off e he
    · rw [if_neg h1] at he
      by_cases h2 : strStarts ['-'] l = true
      · rw [if_pos h2] at he
        exact ih (off + 1) e he
      · rw [if_neg h2] at he
        by_cases h3 : strStarts [' '] l = true
        · rw [if_pos h3] at he
          exact ih (off + 1) e he
        · rw [if_neg h3] at he
          exact ih off e he

lemma sourceEvents_added (entry : String × PRData) (e : Int × MLine)
    (he : e ∈ sourceEvents entry) :
    e.2.type = LineType.added ∧ -1 ≤ e.1 := by
  unfold sourceEvents at he
  cases hp : entry.2.patch with
  | none => rw [hp] at he; simp at he
  | some patchLines =>
    rw [hp] at he
    rcases List.mem_flatMap.mp he with ⟨sec, _, hsec⟩
    unfold hunkEvents at hsec
    cases hh : parseHeader sec.1 with
    | none => rw [hh] at hsec; simp at hsec
    | some o =>
      rw [hh] at hsec
      have h := bodyEventsAux_added _ _ sec.2 0 e hsec
      refine ⟨h.1, ?_⟩
      have := h.2.2
      by_cases ho : 0 < o
      · rw [if_pos ho] at this; omega
      · rw [if_neg ho] at this; omega

lemma allEvents_added (prs : List (String × PRData)) (e : Int × MLine)
    (he : e ∈ allEvents prs) :
    e.2.type = LineType.added ∧ -1 ≤ e.1 := by
  unfold allEvents at he
  rcases List.mem_flatMap.mp he with ⟨entry, _, hentry⟩
  exact sourceEvents_added entry e hentry

lemma mergeMap_added (prs : List (String × PRData)) (k : Int) (o : MLine)
    (ho : o ∈ mergeMap prs k) : o.type = LineType.added := by
  rw [mergeMap_eq_events, applyEvents_eq_filter] at ho
  rcases List.mem_map.mp ho with ⟨e, he, rfl⟩
  exact (allEvents_added prs e (List.mem_of_mem_filter he)).1

lemma flatMap_congr_mem {α β : Type} :
    ∀ (l : List α) (f g : α → List β), (∀ a ∈ l, f a = g a) →
      l.flatMap f = l.flatMap g := by
  intro l
  induction l with
  | nil => intro f g _; rfl
  | cons a l ih =>
    intro f g h
    rw [List.flatMap_cons, List.flatMap_cons, h a (List.mem_cons_self a l),
      ih f g (fun x hx => h x (List.mem_cons_of_mem a hx))]

lemma flatMap_filter_perm (ks : List Int) (hks : ks.Nodup) :
    ∀ (evs : List (Int × MLine)), (∀ e ∈ evs, e.1 ∈ ks) →
      (ks.flatMap
        (fun k => (evs.filter (fun e => decide (e.1 = k))).map Prod.snd)).Perm
        (evs.map Prod.snd) := by
  intro evs
  induction evs with
  | nil =>
    intro _
    simp
  | cons e es ih =>
    intro h
    have hek : e.1 ∈ ks := h e (List.mem_cons_self e es)
    obtain ⟨A, B, hAB⟩ := List.append_of_mem hek
    have hnd : e.1 ∉ A ∧ e.1 ∉ B := by
      have hks2 := hks
      rw [hAB] at hks2
      rcases List.nodup_cons.mp (List.nodup_middle.mp hks2) with ⟨hnotin, _⟩
      rw [List.mem_append] at hnotin
      push_neg at hnotin
      exact hnotin
    have hstep : ∀ k : Int, k ≠ e.1 →
        ((e :: es).filter (fun e2 => decide (e2.1 = k))).map Prod.snd =
          (es.filter (fun e2 => decide (e2.1 = k))).map Prod.snd := by
      intro k hk
      rw [List.filter_cons]
      have hd : decide (e.1 = k) = false := by
        simp only [decide_eq_false_iff_not]
        exact fun hh => hk hh.symm
      rw [hd]
      simp
    have hA : A.flatMap
        (fun k => ((e :: es).filter (fun e2 => decide (e2.1 = k))).map Prod.snd) =
        A.flatMap (fun k => (es.filter (fun e2 => decide (e2.1 = k))).map Prod.snd) :=
      flatMap_congr_mem A _ _
        (fun k hk => hstep k (fun hh => hnd.1 (hh ▸ hk)))
    have hB : B.flatMap
        (fun k => ((e :: es).filter (fun e2 => decide (e2.1 = k))).map Prod.snd) =
        B.flatMap (fun k => (es.filter (fun e2 => decide (e2.1 = k))).map Prod.snd) :=
      flatMap_congr_mem B _ _
        (fun k hk => hstep k (fun hh => hnd.2 (hh ▸ hk)))
    have hE : ((e :: es).filter (fun e2 => decide (e2.1 = e.1))).map Prod.snd =
        e.2 :: (es.filter (fun e2 => decide (e2.1 = e.1))).map Prod.snd := by
      rw [List.filter_cons]
      simp
    rw [hAB, List.flatMap_append, List.flatMap_cons, hA, hB, hE]
    have hmid :
        A.flatMap (fun k => (es.filter (fun e2 => decide (e2.1 = k))).map Prod.snd)
          ++ (e.2 :: (es.filter (fun e2 => decide (e2.1 = e.1))).map Prod.snd
            ++ B.flatMap
              (fun k => (es.filter (fun e2 => decide (e2.1 = k))).map Prod.snd)) =
        A.flatMap (fun k => (es.filter (fun e2 => decide (e2.1 = k))).map Prod.snd)
          ++ e.2 :: ((es.filter (fun e2 => decide (e2.1 = e.1))).map Prod.snd
            ++ B.flatMap
              (fun k => (es.filter (fun e2 => decide (e2.1 = k))).map Prod.snd)) := by
      rw [List.cons_append]
    rw [hmid]
    refine List.Perm.trans List.perm_middle ?_
    refine List.Perm.cons e.2 ?_
    have hks_restore :
        A.flatMap (fun k => (es.filter (fun e2 => decide (e2.1 = k))).map Prod.snd)
          ++ ((es.filter (fun e2 => decide (e2.1 = e.1))).map Prod.snd
            ++ B.flatMap
              (fun k => (es.filter (fun e2 => decide (e2.1 = k))).map Prod.snd)) =
        ks.flatMap (fun k => (es.filter (fun e2 => decide (e2.1 = k))).map Prod.snd) := by
      rw [hAB, List.flatMap_append, List.flatMap_cons]
    rw [hks_restore]
    exact ih (fun e2 he2 => h e2 (List.mem_cons_of_mem e he2))

lemma filterMap_lookup_self :
    ∀ (prs : List (String × PRData)), (prs.map Prod.fst).Nodup →
      ((prs.map Prod.fst).filterMap
        (fun k => (prs.lookup k).map (fun d => (k, d)))) = prs := by
  intro prs
  induction prs with
  | nil => intro _; rfl
  | cons p ps ih =>
    intro hnd
    rw [List.map_cons] at hnd
    rcases List.nodup_cons.mp hnd with ⟨hnotin, hnd2⟩
    rw [List.map_cons, List.filterMap_cons]
    have hself : (((p :: ps).lookup p.1).map fun d => (p.1, d)) = some (p.1, p.2) := by
      have : (p :: ps).lookup p.1 = some p.2 := by
        cases p with
        | mk k d => simp [List.lookup]
      rw [this]
      rfl
    rw [hself]
    have hcongr : (ps.map Prod.fst).filterMap
        (fun k => (((p :: ps).lookup k).map fun d => (k, d))) =
        (ps.map Prod.fst).filterMap (fun k => ((ps.lookup k).map fun d => (k, d))) := by
      refine List.filterMap_congr ?_
      intro k hk
      have hmiss : (p :: ps).lookup k = ps.lookup k := by
        have hb : (k == p.1) = false :=
          beq_eq_false_iff_ne.mpr (fun hh => hnotin (hh ▸ hk))
        cases p with
        | mk k2 d => simp only [List.lookup, hb]
      rw [hmiss]
    rw [hcongr, ih hnd2]

lemma sortedEntries_perm (prs : List (String × PRData))
    (hnd : (prs.map Prod.fst).Nodup) : (sortedEntries prs).Perm prs := by
  unfold sortedEntries
  have hperm := List.perm_insertionSort
    (fun a b => prKey a ≤ prKey b) (prs.map Prod.fst)
  refine List.Perm.trans (List.Perm.filterMap _ hperm) ?_
  rw [filterMap_lookup_self prs hnd]

lemma mergeFinal_filter_added (base : List String) (m : AddMap)
    (hm : ∀ (k : Int), ∀ o ∈ m k, o.type = LineType.added) :
    (mergeFinal base m).filter (fun x => decide (x.type = LineType.added)) =
      m (-1) ++ base.enum.flatMap (fun p => m (p.1 : Int)) := by
  unfold mergeFinal
  rw [List.filter_append, List.filter_flatMap]
  have h1 : (m (-1)).filter (fun x => decide (x.type = LineType.added)) = m (-1) := by
    rw [List.filter_eq_self]
    intro a ha
    simp [hm _ a ha]
  have h2 : ∀ p : Nat × String,
      ((⟨escapeHtml p.2, LineType.base, none⟩ : MLine) :: m (p.1 : Int)).filter
        (fun x => decide (x.type = LineType.added)) = m (p.1 : Int) := by
    intro p
    rw [List.filter_cons]
    simp only [decide_eq_true_eq]
    rw [if_neg (by simp)]
    rw [List.filter_eq_self]
    intro a ha
    simp [hm _ a ha]
  rw [h1, flatMap_congr_mem _ _ _ (fun p _ => h2 p)]

lemma mergeFinal_filter_base (base : List String) (m : AddMap)
    (hm : ∀ (k : Int), ∀ o ∈ m k, o.type = LineType.added) :
    (mergeFinal base m).filter (fun x => decide (x.type = LineType.base)) =
      base.map (fun t => ⟨escapeHtml t, LineType.base, none⟩) := by
  unfold mergeFinal
  rw [List.filter_append, List.filter_flatMap]
  have h1 : (m (-1)).filter (fun x => decide (x.type = LineType.base)) = [] := by
    rw [List.filter_eq_nil_iff]
    intro a ha
    simp [hm _ a ha]
  have h2 : ∀ p : Nat × String,
      ((⟨escapeHtml p.2, LineType.base, none⟩ : MLine) :: m (p.1 : Int)).filter
        (fun x => decide (x.type = LineType.base)) =
        [(⟨escapeHtml p.2, LineType.base, none⟩ : MLine)] := by
    intro p
    rw [List.filter_cons]
    rw [if_pos (by simp)]
    rw [List.filter_eq_nil_iff.mpr (fun a ha => by simp [hm _ a ha])]
  rw [h1, flatMap_congr_mem _ _ _ (fun p _ => h2 p), List.nil_append]
  have h3 : base.enum.flatMap
      (fun p => [(⟨escapeHtml p.2, LineType.base, none⟩ : MLine)]) =
      base.enum.map (fun p => (⟨escapeHtml p.2, LineType.base, none⟩ : MLine)) := by
    induction base.enum with
    | nil => rfl
    | cons p ps ih => rw [List.flatMap_cons, List.map_cons, ih]; rfl
  rw [h3]
  have h4 := List.enum_map_snd base
  calc base.enum.map (fun p => (⟨escapeHtml p.2, LineType.base, none⟩ : MLine))
      = (base.enum.map Prod.snd).map
          (fun t => (⟨escapeHtml t, LineType.base, none⟩ : MLine)) := by
        rw [List.map_map]
        rfl
    _ = base.map (fun t => (⟨escapeHtml t, LineType.base, none⟩ : MLine)) := by
        rw [h4]

/-- C8: in the merged output every base line appears exactly once, in the
original order, as a `'type': 'base'` dictionary with no PR info: the
sub-list of base-typed lines of the output is exactly the (escaped) base,
in order, because every entry of `additions_map` is an added line. -/
theorem C8_base_lines_preserved :
    ∀ (base : List String) (prs : List (String × PRData)),
      (generate_interleaved_lines_for_all_prs base prs).filter
          (fun x => decide (x.type = LineType.base)) =
        base.map (fun t => ⟨escapeHtml t, LineType.base, none⟩) := by
  intro base prs
  unfold generate_interleaved_lines_for_all_prs
  exact mergeFinal_filter_base base (mergeMap prs)
    (fun k o ho => mergeMap_added prs k o ho)

lemma bodyEventsAux_length (pr : PRInfo) (target : Int) :
    ∀ (body : List String) (off : Nat),
      (bodyEventsAux pr target body off).length =
        (body.filter (fun l => strStarts ['+'] l)).length := by
  intro body
  induction body with
  | nil => intro off; rfl
  | cons l ls ih =>
    intro off
    unfold bodyEventsAux
    rw [List.filter_cons]
    by_cases h1 : strStarts ['+'] l = true
    · rw [if_pos h1, if_pos h1, List.length_cons, List.length_cons, ih off]
    · rw [if_neg h1, if_neg h1]
      by_cases h2 : strStarts ['-'] l = true
      · rw [if_pos h2]
        exact ih (off + 1)
      · rw [if_neg h2]
        by_cases h3 : strStarts [' '] l = true
        · rw [if_pos h3]
          exact ih (off + 1)
        · rw [if_neg h3]
          exact ih off

lemma hunkEvents_length (pr : PRInfo) (sec : String × List String) :
    (hunkEvents pr sec).length = hunkAddedCount sec := by
  unfold hunkEvents hunkAddedCount
  cases hp : parseHeader sec.1 with
  | none => rfl
  | some o => exact bodyEventsAux_length pr _ sec.2 0

lemma sourceEvents_length (entry : String × PRData) :
    (sourceEvents entry).length = sourceAddedCount entry := by
  unfold sourceEvents sourceAddedCount
  cases hp : entry.2.patch with
  | none => rfl
  | some patchLines =>
    rw [List.length_flatMap]
    congr 1
    exact List.map_congr_left (fun sec _ => hunkEvents_length _ sec)

lemma flatMap_sourceEvents_length (prs : List (String × PRData)) :
    (prs.flatMap sourceEvents).length = addedLineCount prs := by
  rw [List.length_flatMap]
  unfold addedLineCount
  congr 1
  exact List.map_congr_left (fun e _ => sourceEvents_length e)

lemma allEvents_perm (prs : List (String × PRData))
    (hnd : (prs.map Prod.fst).Nodup) :
    (allEvents prs).Perm (prs.flatMap sourceEvents) :=
  List.Perm.flatMap_right sourceEvents (sortedEntries_perm prs hnd)

lemma mergeKeys_nodup (n : Nat) :
    ((-1 : Int) :: (List.range n).map (fun (i : Nat) => (i : Int))).Nodup := by
  rw [List.nodup_cons]
  constructor
  · intro h
    rcases List.mem_map.mp h with ⟨i, _, hi⟩
    omega
  · refine List.Nodup.map_on ?_ (List.nodup_range n)
    intro x _ y _ hxy
    omega

lemma mem_mergeKeys {k : Int} {n : Nat} (h1 : -1 ≤ k) (h2 : k < (n : Int)) :
    k ∈ ((-1 : Int) :: (List.range n).map (fun (i : Nat) => (i : Int))) := by
  rcases lt_or_ge k 0 with hk | hk
  · have : k = -1 := by omega
    rw [this]
    exact List.mem_cons_self _ _
  · refine List.mem_cons_of_mem _ (List.mem_map.mpr ⟨k.toNat, ?_, ?_⟩)
    · rw [List.mem_range]
      omega
    · rw [Int.toNat_of_nonneg hk]

lemma mergeFinal_added_part (base : List String) (prs : List (String × PRData)) :
    mergeMap prs (-1) ++ base.enum.flatMap (fun p => mergeMap prs (p.1 : Int)) =
      ((-1 : Int) :: (List.range base.length).map (fun (i : Nat) => (i : Int))).flatMap
        (fun k => mergeMap prs k) := by
  rw [List.flatMap_cons]
  congr 1
  rw [List.flatMap_map]
  have h := List.enum_map_fst base
  calc base.enum.flatMap (fun p => mergeMap prs ((p.1 : Nat) : Int))
      = (base.enum.map Prod.fst).flatMap (fun i => mergeMap prs (i : Int)) := by
        rw [List.flatMap_map]
    _ = (List.range base.length).flatMap (fun i => mergeMap prs (i : Int)) := by
        rw [h]


/-- C1 (amended): provided every computed insertion key is below
`len(base)` (keys at or past `len(base)` are silently dropped by the
emission loop, which only walks indices `-1, 0, …, len(base)-1`), the
merged output contains every Added line of every supplied patch exactly
once — its added-typed lines are a permutation of the line objects of
all append events — and its total length is `len(base)` plus the total
Added-line count of all hunks of all patches. -/
theorem C1_merge_completeness :
    ∀ (base : List String) (prs : List (String × PRData)),
      (prs.map Prod.fst).Nodup →
      (∀ e ∈ prs.flatMap sourceEvents, e.1 < (base.length : Int)) →
      (generate_interleaved_lines_for_all_prs base prs).length =
        base.length + addedLineCount prs
      ∧ ((generate_interleaved_lines_for_all_prs base prs).filter
          (fun x => decide (x.type = LineType.added))).Perm
          ((prs.flatMap sourceEvents).map Prod.snd) := by
  intro base prs hnd hkeys
  have haddm : ∀ (k : Int), ∀ o ∈ mergeMap prs k, o.type = LineType.added :=
    fun k o ho => mergeMap_added prs k o ho
  have hperm : ((generate_interleaved_lines_for_all_prs base prs).filter
      (fun x => decide (x.type = LineType.added))).Perm
      ((prs.flatMap sourceEvents).map Prod.snd) := by
    unfold generate_interleaved_lines_for_all_prs
    rw [mergeFinal_filter_added base (mergeMap prs) haddm, mergeFinal_added_part]
    have hpt : ∀ k ∈ ((-1 : Int) ::
        (List.range base.length).map (fun (i : Nat) => (i : Int))),
        mergeMap prs k =
          ((allEvents prs).filter (fun e => decide (e.1 = k))).map Prod.snd := by
      intro k _
      rw [mergeMap_eq_events]
      exact applyEvents_eq_filter k (allEvents prs)
    rw [flatMap_congr_mem _ _ _ hpt]
    refine List.Perm.trans
      (flatMap_filter_perm _ (mergeKeys_nodup base.length) (allEvents prs) ?_)
      (List.Perm.map Prod.snd (allEvents_perm prs hnd))
    intro e he
    have h1 := (allEvents_added prs e he).2
    have h2 : e.1 < (base.length : Int) :=
      hkeys e ((allEvents_perm prs hnd).mem_iff.mp he)
    exact mem_mergeKeys h1 h2
  refine ⟨?_, hperm⟩
  rw [List.length_eq_countP_add_countP
    (fun x => decide (x.type = LineType.added))]
  have hc : List.countP (fun a => decide ¬(decide (a.type = LineType.added) = true))
      (generate_interleaved_lines_for_all_prs base prs) =
      List.countP (fun a => decide (a.type = LineType.base))
        (generate_interleaved_lines_for_all_prs base prs) := by
    refine List.countP_congr ?_
    intro x _
    cases hx : x.type <;> simp [hx]
  rw [hc]
  rw [List.countP_eq_length_filter, List.countP_eq_length_filter]
  rw [hperm.length_eq, List.length_map, flatMap_sourceEvents_length]
  unfold generate_interleaved_lines_for_all_prs
  rw [mergeFinal_filter_base base (mergeMap prs) haddm, List.length_map]
  omega

/-- C1 witness: one source whose single hunk inserts `x` at key 1 on a
two-line base: output length is `2 + 1`. -/
theorem C1_merge_completeness_witness :
    ([("1", (⟨some ["@@ -1,1 +1,2 @@", " a", "+x"], "t", "u", "l"⟩ : PRData))].map
      Prod.fst).Nodup
    ∧ (∀ e ∈ [("1", (⟨some ["@@ -1,1 +1,2 @@", " a", "+x"], "t", "u", "l"⟩ :
        PRData))].flatMap sourceEvents, e.1 < ((["a", "b"] : List String).length : Int))
    ∧ (generate_interleaved_lines_for_all_prs ["a", "b"]
        [("1", ⟨some ["@@ -1,1 +1,2 @@", " a", "+x"], "t", "u", "l"⟩)]).length =
      (["a", "b"] : List String).length +
        addedLineCount [("1", ⟨some ["@@ -1,1 +1,2 @@", " a", "+x"], "t", "u", "l"⟩)] :=
  ⟨by decide, by decide,
    (C1_merge_completeness ["a", "b"]
      [("1", ⟨some ["@@ -1,1 +1,2 @@", " a", "+x"], "t", "u", "l"⟩)]
      (by decide) (by decide)).1⟩

/-- C1 counterexample: a hunk whose header points past the base
(`old_start = 5` on a one-line base) produces insertion key 4, which the
emission loop never reaches: the added line is dropped, the output has
length 1, not `len(base) + 1 = 2`. -/
theorem C1_merge_completeness_counterexample :
    (generate_interleaved_lines_for_all_prs ["a"]
        [("1", (⟨some ["@@ -5 +5 @@", "+x"], "t", "u", "l"⟩ : PRData))]).length = 1
    ∧ addedLineCount [("1", (⟨some ["@@ -5 +5 @@", "+x"], "t", "u", "l"⟩ : PRData))] = 1
    ∧ ¬ ((generate_interleaved_lines_for_all_prs ["a"]
          [("1", (⟨some ["@@ -5 +5 @@", "+x"], "t", "u", "l"⟩ : PRData))]).length =
        (["a"] : List String).length +
          addedLineCount [("1", (⟨some ["@@ -5 +5 @@", "+x"], "t", "u", "l"⟩ : PRData))]) := by
  refine ⟨by decide, by decide, by decide⟩

lemma bodyEventsAux_mem_plus (pr : PRInfo) (target : Int) :
    ∀ (pre : List String) (l : String) (rest : List String) (off : Nat),
      (∀ x ∈ pre, strStarts ['-'] x = false ∧ strStarts [' '] x = false) →
      strStarts ['+'] l = true →
      (target + (off : Int),
        (⟨escapeHtml (dropFirst l), LineType.added, some pr⟩ : MLine)) ∈
        bodyEventsAux pr target (pre ++ l :: rest) off := by
  intro pre
  induction pre with
  | nil =>
    intro l rest off _ hl
    rw [List.nil_append]
    unfold bodyEventsAux
    rw [if_pos hl]
    exact List.mem_cons_self _ _
  | cons x pre ih =>
    intro l rest off hpre hl
    rcases hpre x (List.mem_cons_self x pre) with ⟨hx1, hx2⟩
    have hpre2 : ∀ y ∈ pre, strStarts ['-'] y = false ∧ strStarts [' '] y = false :=
      fun y hy => hpre y (List.mem_cons_of_mem x hy)
    rw [List.cons_append]
    unfold bodyEventsAux
    by_cases hxp : strStarts ['+'] x = true
    · rw [if_pos hxp]
      exact List.mem_cons_of_mem _ (ih l rest off hpre2 hl)
    · rw [if_neg hxp, if_neg (by simp [hx1]), if_neg (by simp [hx2])]
      exact ih l rest off hpre2 hl

lemma event_mem_sourceEvents (key : String) (d : PRData) (pls : List String)
    (hd : d.patch = some pls) (h : String) (body pre rest : List String) (l : String)
    (hsec : (h, body) ∈ hunkSections pls) (hh : parseHeader h = some 0)
    (hbody : body = pre ++ l :: rest)
    (hpre : ∀ x ∈ pre, strStarts ['-'] x = false ∧ strStarts [' '] x = false)
    (hl : strStarts ['+'] l = true) :
    ((-1 : Int),
      (⟨escapeHtml (dropFirst l), LineType.added, some (mkPrDetails key d)⟩ : MLine)) ∈
      sourceEvents (key, d) := by
  unfold sourceEvents
  rw [hd]
  refine List.mem_flatMap.mpr ⟨(h, body), hsec, ?_⟩
  unfold hunkEvents
  rw [hh]
  have h0 : (if 0 < 0 then ((0 : Nat) : Int) - 1 else -1) = (-1 : Int) := by
    rw [if_neg (by omega)]
  show ((-1 : Int), _) ∈ bodyEventsAux (mkPrDetails key d)
    (if 0 < 0 then ((0 : Nat) : Int) - 1 else -1) body 0
  rw [h0, hbody]
  have hmem := bodyEventsAux_mem_plus (mkPrDetails key d) (-1) pre l rest 0 hpre hl
  simpa using hmem

lemma event_mem_mergeMap (prs : List (String × PRData)) (k : Int) (o : MLine)
    (he : (k, o) ∈ allEvents prs) : o ∈ mergeMap prs k := by
  rw [mergeMap_eq_events, applyEvents_eq_filter]
  exact List.mem_map.mpr ⟨(k, o), List.mem_filter.mpr ⟨he, by simp⟩, rfl⟩

/-- C2 (amended): an `Added` line of a hunk with `old_start = 0` that is
preceded by no `Removed` or `Context` line within its hunk body gets
insertion key `-1` and lands in the block emitted before the base loop,
so it appears before every Base line of the merged output (that block
contains only added-typed lines); an `Added` line preceded by
`Removed`/`Context` lines gets key `-1 + offset ≥ 0` and does not (see
the counterexample). -/
theorem C2_sentinel_key :
    ∀ (base : List String) (prs : List (String × PRData)) (key : String) (d : PRData)
      (pls : List String) (h : String) (body pre rest : List String) (l : String),
      (prs.map Prod.fst).Nodup →
      (key, d) ∈ prs →
      d.patch = some pls →
      (h, body) ∈ hunkSections pls →
      parseHeader h = some 0 →
      body = pre ++ l :: rest →
      (∀ x ∈ pre, strStarts ['-'] x = false ∧ strStarts [' '] x = false) →
      strStarts ['+'] l = true →
      generate_interleaved_lines_for_all_prs base prs =
        mergeMap prs (-1) ++ base.enum.flatMap
          (fun p => ⟨escapeHtml p.2, LineType.base, none⟩ :: mergeMap prs (p.1 : Int))
      ∧ (⟨escapeHtml (dropFirst l), LineType.added, some (mkPrDetails key d)⟩ : MLine) ∈
          mergeMap prs (-1)
      ∧ ∀ x ∈ mergeMap prs (-1), x.type = LineType.added := by
  intro base prs key d pls h body pre rest l hnd hmem hd hsec hh hbody hpre hl
  refine ⟨rfl, ?_, fun x hx => mergeMap_added prs (-1) x hx⟩
  refine event_mem_mergeMap prs (-1) _ ?_
  refine List.mem_flatMap.mpr ⟨(key, d), ?_, ?_⟩
  · exact (sortedEntries_perm prs hnd).mem_iff.mpr hmem
  · exact event_mem_sourceEvents key d pls hd h body pre rest l hsec hh hbody hpre hl

/-- C2 witness: source "1" inserts `p` via hunk `@@ -0,0 +1 @@` with no
preceding body lines; the line lands in the pre-base block. -/
theorem C2_sentinel_key_witness :
    (([("1", (⟨some ["@@ -0,0 +1 @@", "+p"], "t", "u", "l"⟩ : PRData))].map
      Prod.fst).Nodup)
    ∧ parseHeader "@@ -0,0 +1 @@" = some 0
    ∧ strStarts ['+'] "+p" = true
    ∧ (⟨escapeHtml (dropFirst "+p"), LineType.added,
        some (mkPrDetails "1" (⟨some ["@@ -0,0 +1 @@", "+p"], "t", "u", "l"⟩ :
          PRData))⟩ : MLine) ∈
      mergeMap [("1", (⟨some ["@@ -0,0 +1 @@", "+p"], "t", "u", "l"⟩ : PRData))] (-1) := by
  have h := C2_sentinel_key ["x"]
    [("1", (⟨some ["@@ -0,0 +1 @@", "+p"], "t", "u", "l"⟩ : PRData))]
    "1" (⟨some ["@@ -0,0 +1 @@", "+p"], "t", "u", "l"⟩ : PRData)
    ["@@ -0,0 +1 @@", "+p"] "@@ -0,0 +1 @@" ["+p"] [] [] "+p"
    (by decide) (by decide) rfl (by decide) (by decide) rfl
    (by intro x hx; simp at hx) (by decide)
  exact ⟨by decide, by decide, by decide, h.2.1⟩

/-- C2 counterexample: the hunk `@@ -0,0 +1 @@` with body
`[" c", "+x"]` has `old_start = 0`, yet its Added line `x` gets key
`-1 + 1 = 0` and is emitted after the base line `a`: no added line
precedes the first base line of the output. -/
theorem C2_sentinel_key_counterexample :
    parseHeader "@@ -0,0 +1 @@" = some 0
    ∧ generate_interleaved_lines_for_all_prs ["a"]
        [("1", (⟨some ["@@ -0,0 +1 @@", " c", "+x"], "t", "u", "l"⟩ : PRData))] =
      [⟨"a", LineType.base, none⟩,
       ⟨"x", LineType.added, some ⟨"1", "t", "u", "l"⟩⟩]
    ∧ (generate_interleaved_lines_for_all_prs ["a"]
        [("1", (⟨some ["@@ -0,0 +1 @@", " c", "+x"], "t", "u", "l"⟩ : PRData))]).takeWhile
          (fun x => x.type == LineType.added) = []
    ∧ (⟨"x", LineType.added, some ⟨"1", "t", "u", "l"⟩⟩ : MLine) ∈
        generate_interleaved_lines_for_all_prs ["a"]
          [("1", (⟨some ["@@ -0,0 +1 @@", " c", "+x"], "t", "u", "l"⟩ : PRData))] := by
  refine ⟨by decide, by decide, by decide, by decide⟩

lemma mergeSource_lookup (m : AddMap) (entry : String × PRData) (k : Int) :
    mergeSource m entry k = m k ++ mergeSource emptyAddMap entry k := by
  rw [mergeSource_eq_events, mergeSource_eq_events, applyEvents_lookup]

/-- C7: for two sources with ids "1" and "2" and arbitrary data, the
merged output is the same whichever order the mapping lists them in
(both sort to the same processing order, ascending by numeric id), and at
every insertion key the accumulated list is all insertions of source
"1" followed by all insertions of source "2" — so at a shared key the
insertions of "1" precede those of "2" in the output. -/
theorem C7_merge_tie_break :
    ∀ (base : List String) (d1 d2 : PRData),
      generate_interleaved_lines_for_all_prs base [("1", d1), ("2", d2)] =
        generate_interleaved_lines_for_all_prs base [("2", d2), ("1", d1)]
      ∧ ∀ k : Int,
          mergeMap [("1", d1), ("2", d2)] k =
            mergeSource emptyAddMap ("1", d1) k ++
              mergeSource emptyAddMap ("2", d2) k := by
  intro base d1 d2
  have hs1 : sortedEntries [("1", d1), ("2", d2)] = [("1", d1), ("2", d2)] := rfl
  have hs2 : sortedEntries [("2", d2), ("1", d1)] = [("1", d1), ("2", d2)] := rfl
  constructor
  · unfold generate_interleaved_lines_for_all_prs mergeMap
    rw [hs1, hs2]
  · intro k
    unfold mergeMap
    rw [hs1]
    show mergeSource (mergeSource emptyAddMap ("1", d1)) ("2", d2) k = _
    rw [mergeSource_lookup]
